import Mathlib

/-!
Verification of the visualization geometry of the nba-career-analytics
frontend: per-axis radar normalization, radial vertex layout, smooth curve
fitting, season-axis tick generation, annotation placement, series color
assignment, similar-player ranking and legend slicing.  Every definition is
a shallow embedding of the corresponding TypeScript function; numbers are
modelled as rationals (reals only where trigonometry is involved).
-/

namespace NbaViz

/-! ## RadarChart (max-scaling variant, `RadarChart` component)

The component declares a fixed 7-axis spec over a `Series` record whose
stat fields are each `number | null`.  `maxPerAxis` scans all series for the
per-axis max; `buildPath` divides each raw value by the axis max and clamps
with `Math.min(·, 1)`. -/

/-- The 7 axis keys of the RadarChart `axes` array, in declaration order. -/
inductive RadarAxis where
  | pts_per_game
  | ast_per_game
  | reb_per_game
  | fg3_per_game
  | ts_pct
  | availability
  | value_score
deriving DecidableEq

/-- The RadarChart `Series` record: every stat field is `number | null`,
modelled as `Option ℚ`.  (`player_id` and `name` are irrelevant to the
normalization and omitted from the stat getter.) -/
structure RadarSeries where
  pts_per_game : Option ℚ
  ast_per_game : Option ℚ
  reb_per_game : Option ℚ
  fg3_per_game : Option ℚ
  ts_pct : Option ℚ
  availability : Option ℚ
  value_score : Option ℚ
deriving DecidableEq

/-- Field access `s[axis.key]` for the RadarChart series. -/
def RadarSeries.get (s : RadarSeries) : RadarAxis → Option ℚ
  | .pts_per_game => s.pts_per_game
  | .ast_per_game => s.ast_per_game
  | .reb_per_game => s.reb_per_game
  | .fg3_per_game => s.fg3_per_game
  | .ts_pct => s.ts_pct
  | .availability => s.availability
  | .value_score => s.value_score

/-- `maxPerAxis` of RadarChart: collect the non-null values of the axis over
all series; `Math.max(...vals)` when nonempty, else `1`; then the JS
`maxVal || 1` turns a zero max into `1`. -/
def maxPerAxis (ss : List RadarSeries) (k : RadarAxis) : ℚ :=
  let vals := ss.filterMap (fun s => s.get k)
  let maxVal : ℚ :=
    match vals with
    | [] => 1
    | v :: vs => vs.foldl max v
  if maxVal = 0 then 1 else maxVal

/-- The normalized value computed inside RadarChart's `buildPath`:
`raw = series[axis.key] ?? 0`, `max = maxPerAxis[axis.key] || 1`,
`val = Math.min(raw / max, 1)`.  Note there is no lower clamp. -/
def normValue (ss : List RadarSeries) (s : RadarSeries) (k : RadarAxis) : ℚ :=
  let raw := (s.get k).getD 0
  let mx := maxPerAxis ss k
  let mx1 := if mx = 0 then 1 else mx
  min (raw / mx1) 1

/-! ## CountingGeometrySpider (pre-normalized variant)

Its `Series` record carries plain (non-null) numbers already normalized
into similarity z-space; `buildPath` only clamps:
`Math.max(0, Math.min(1, Number(s[axis.key]) || 0))`. -/

/-- The 8 axis keys of the CountingGeometrySpider `axes` array, in order. -/
inductive SpiderAxis where
  | efficiency
  | threes
  | points
  | rebounds
  | assists
  | steals
  | blocks
  | turnovers
deriving DecidableEq

/-- The CountingGeometrySpider `Series` record: identity, eight plain
numeric stats and an optional distance. -/
structure SpiderSeries where
  player_id : ℤ
  name : String
  efficiency : ℚ
  threes : ℚ
  points : ℚ
  rebounds : ℚ
  assists : ℚ
  steals : ℚ
  blocks : ℚ
  turnovers : ℚ
  distance : Option ℚ
deriving DecidableEq

/-- Field access `s[axis.key]` for the spider series. -/
def SpiderSeries.get (s : SpiderSeries) : SpiderAxis → ℚ
  | .efficiency => s.efficiency
  | .threes => s.threes
  | .points => s.points
  | .rebounds => s.rebounds
  | .assists => s.assists
  | .steals => s.steals
  | .blocks => s.blocks
  | .turnovers => s.turnovers

/-- The clamped value computed inside the spider's `buildPath`:
`Math.max(0, Math.min(1, Number(s[axis.key]) || 0))` (for a finite numeric
field, `Number(x) || 0` is the identity). -/
def spiderNormValue (s : SpiderSeries) (k : SpiderAxis) : ℚ :=
  max 0 (min 1 (s.get k))

/-! ### Helper lemmas on `List.foldl max` -/

lemma le_foldl_max (a : ℚ) (l : List ℚ) : a ≤ l.foldl max a := by
  induction l generalizing a with
  | nil => exact le_refl a
  | cons x xs ih => exact le_trans (le_max_left a x) (ih (max a x))

lemma foldl_max_le (a : ℚ) (l : List ℚ) (ha : ∀ x ∈ l, x ≤ a) :
    l.foldl max a = a := by
  induction l generalizing a with
  | nil => rfl
  | cons x xs ih =>
      have hx : max a x = a := max_eq_left (ha x (by simp))
      simp only [List.foldl_cons, hx]
      exact ih a (fun y hy => ha y (by simp [hy]))

lemma foldl_max_nonneg (a : ℚ) (l : List ℚ) (ha : 0 ≤ a) :
    0 ≤ l.foldl max a :=
  le_trans ha (le_foldl_max a l)

/-- The effective divisor in `normValue` is positive whenever every observed
value on the axis is nonnegative. -/
lemma norm_divisor_pos (ss : List RadarSeries) (k : RadarAxis)
    (hobs : ∀ s2 ∈ ss, 0 ≤ (s2.get k).getD 0) :
    0 < (if maxPerAxis ss k = 0 then 1 else maxPerAxis ss k) := by
  have hvals : ∀ x ∈ ss.filterMap (fun s => s.get k), (0:ℚ) ≤ x := by
    intro x hx
    rcases List.mem_filterMap.mp hx with ⟨s2, hs2, hget⟩
    have := hobs s2 hs2
    rw [hget] at this
    simpa using this
  have hmax : 0 ≤ maxPerAxis ss k := by
    unfold maxPerAxis
    cases hv : ss.filterMap (fun s => s.get k) with
    | nil => simp
    | cons v vs =>
        have hv0 : (0:ℚ) ≤ v := hvals v (by rw [hv]; simp)
        have : 0 ≤ vs.foldl max v := foldl_max_nonneg v vs hv0
        by_cases hz : vs.foldl max v = 0 <;> simp [hv, hz, this]
  by_cases hz : maxPerAxis ss k = 0
  · simp [hz]
  · rw [if_neg hz]
    exact lt_of_le_of_ne hmax (Ne.symm hz)

/-- A record set exercising the radar normalization: one series with a
positive points value. -/
def exPos : RadarSeries := ⟨some 5, none, none, none, none, none, none⟩

/-- A series with a negative points value, used together with `exPos`. -/
def exNeg : RadarSeries := ⟨some (-1), none, none, none, none, none, none⟩

/-- A series whose only observed value is zero. -/
def exZero : RadarSeries := ⟨some 0, none, none, none, none, none, none⟩

/-- C1 counterexample: the RadarChart normalization only clamps from above
(`Math.min(raw / max, 1)`), so a record whose raw value is negative while
the per-axis max is positive produces a normalized value below 0, refuting
"the per-axis normalized value lies in [0,1] ... even when a record's raw
value ... is negative" at the concrete record set `[exPos, exNeg]`. -/
theorem radar_norm_negative_cex :
    normValue [exPos, exNeg] exNeg RadarAxis.pts_per_game < 0 := by
  norm_num [normValue, maxPerAxis, exPos, exNeg, RadarSeries.get,
    List.filterMap_cons, List.filterMap_nil, min_def]

/-- C1 (amended): the RadarChart normalized value is clamped from above,
`normValue ≤ 1`, for every record set, record and axis — even when the raw
value exceeds the per-axis max; it additionally lies in `[0,1]` whenever the
record's raw value and every observed value on the axis are nonnegative.
The CountingGeometrySpider variant clamps to `[0,1]` unconditionally. -/
theorem norm_value_bounds (ss : List RadarSeries) (s : RadarSeries) (k : RadarAxis)
    (hraw : 0 ≤ (s.get k).getD 0)
    (hobs : ∀ s2 ∈ ss, 0 ≤ (s2.get k).getD 0) :
    (∀ ss2 s2 k2, normValue ss2 s2 k2 ≤ 1) ∧
    (0 ≤ normValue ss s k ∧ normValue ss s k ≤ 1) ∧
    (∀ sp k2, 0 ≤ spiderNormValue sp k2 ∧ spiderNormValue sp k2 ≤ 1) := by
  refine ⟨?_, ⟨?_, ?_⟩, ?_⟩
  · intro ss2 s2 k2
    unfold normValue
    exact min_le_right _ _
  · have hpos := norm_divisor_pos ss k hobs
    show 0 ≤ min (((s.get k).getD 0) /
      (if maxPerAxis ss k = 0 then 1 else maxPerAxis ss k)) 1
    exact le_min (div_nonneg hraw hpos.le) zero_le_one
  · unfold normValue
    exact min_le_right _ _
  · intro sp k2
    refine ⟨le_max_left _ _, ?_⟩
    unfold spiderNormValue
    exact max_le zero_le_one (min_le_left _ _)

/-- C1 witness: the amended bounds instantiated at the concrete record set
`[exPos]` and record `exPos`. -/
theorem norm_value_bounds_witness :
    0 ≤ normValue [exPos] exPos RadarAxis.pts_per_game ∧
    normValue [exPos] exPos RadarAxis.pts_per_game ≤ 1 :=
  (norm_value_bounds [exPos] exPos RadarAxis.pts_per_game
    (by norm_num [exPos, RadarSeries.get])
    (by
      intro s2 hs2
      simp only [List.mem_singleton] at hs2
      subst hs2
      norm_num [exPos, RadarSeries.get])).2.1

/-- C3: an axis on which every observed value is 0 or absent gets a
normalization domain of 1 (`maxPerAxis = 1`), and every record of the set
normalizes to 0 on that axis; the divisor is the substituted 1, never 0. -/
theorem zero_domain_safety (ss : List RadarSeries) (k : RadarAxis)
    (h : ∀ s ∈ ss, s.get k = none ∨ s.get k = some 0) :
    maxPerAxis ss k = 1 ∧ ∀ s ∈ ss, normValue ss s k = 0 := by
  have hvals : ∀ x ∈ ss.filterMap (fun s => s.get k), x = (0:ℚ) := by
    intro x hx
    rcases List.mem_filterMap.mp hx with ⟨s2, hs2, hget⟩
    rcases h s2 hs2 with hn | h0
    · rw [hn] at hget; cases hget
    · rw [h0] at hget
      injection hget with h2
      exact h2.symm
  have hmax : maxPerAxis ss k = 1 := by
    unfold maxPerAxis
    cases hv : ss.filterMap (fun s => s.get k) with
    | nil => simp
    | cons v vs =>
        have hv0 : v = 0 := hvals v (by rw [hv]; simp)
        have hall : ∀ x ∈ vs, x ≤ v := by
          intro x hx
          have hx0 : x = 0 := hvals x (by rw [hv]; simp [hx])
          rw [hx0, hv0]
        show (if vs.foldl max v = 0 then 1 else vs.foldl max v) = 1
        rw [foldl_max_le v vs hall, hv0]
        simp
  refine ⟨hmax, ?_⟩
  intro s hs
  have hraw : (s.get k).getD 0 = 0 := by
    rcases h s hs with hn | hn <;> simp [hn]
  show min (((s.get k).getD 0) /
    (if maxPerAxis ss k = 0 then 1 else maxPerAxis ss k)) 1 = 0
  rw [hraw, hmax]
  norm_num

/-- C3 witness: the zero-domain rule instantiated at the one-record set
`[exZero]`, whose only observed points value is 0. -/
theorem zero_domain_safety_witness :
    maxPerAxis [exZero] RadarAxis.pts_per_game = 1 ∧
    ∀ s ∈ [exZero], normValue [exZero] s RadarAxis.pts_per_game = 0 :=
  zero_domain_safety [exZero] RadarAxis.pts_per_game (by decide)

/-! ## Series color assignment

CountingGeometrySpider's `seriesColor` reserves `"#38bdf8"` for index 0 and
cycles indices ≥ 1 through a 6-color palette; the RadarChart instead picks
`colors[idx % colors.length]` from a 5-color list for every index. -/

/-- The spider palette used for comparison series (indices ≥ 1). -/
def spiderPalette : List String :=
  ["#f97316", "#a855f7", "#22c55e", "#f59e0b", "#fb7185", "#60a5fa"]

/-- CountingGeometrySpider's `seriesColor`: `"#38bdf8"` for the selected
series at index 0, otherwise `palette[(idx - 1) % palette.length]`. -/
def seriesColor (idx : ℕ) : String :=
  if idx = 0 then "#38bdf8"
  else spiderPalette.getD ((idx - 1) % spiderPalette.length) ""

/-- The RadarChart `colors` list. -/
def radarColors : List String :=
  ["#f97316", "#38bdf8", "#a855f7", "#22c55e", "#f59e0b"]

/-- RadarChart's per-series color pick: `colors[idx % colors.length]`. -/
def radarColor (idx : ℕ) : String :=
  radarColors.getD (idx % radarColors.length) ""

/-- C2 counterexample: the RadarChart variant has no reserved index-0
color — it cycles every index through the 5-color list, so index 5 (a
comparison series, k ≥ 1) receives exactly the color of index 0, refuting
"the color assigned to index 0 ... is distinct from every color assigned to
any index k ≥ 1" for the cited RadarChart color assignment. -/
theorem radar_color_cycle_cex :
    radarColor 5 = radarColor 0 ∧ 1 ≤ 5 := by
  constructor
  · rfl
  · norm_num

/-- C2 (amended): for CountingGeometrySpider's `seriesColor`, index 0 gets
the reserved highlight `"#38bdf8"`, every index k ≥ 1 gets the palette
entry `(k - 1) % 6`, which is never the highlight color, and the assignment
wraps modulo the palette length 6; it is a plain function of the index, so
equal indices always receive equal colors.  The RadarChart variant instead
cycles all indices, index 0 included, through its 5-color list modulo 5. -/
theorem series_color_assignment (k : ℕ) (hk : 1 ≤ k) :
    seriesColor 0 = "#38bdf8" ∧
    seriesColor k = spiderPalette.getD ((k - 1) % 6) "" ∧
    seriesColor k ≠ seriesColor 0 ∧
    seriesColor (k + 6) = seriesColor k ∧
    radarColor (k + 5) = radarColor k := by
  have hk0 : ¬ k = 0 := by omega
  refine ⟨rfl, ?_, ?_, ?_, ?_⟩
  · simp [seriesColor, hk0, spiderPalette]
  · have hr : (k - 1) % 6 = 0 ∨ (k - 1) % 6 = 1 ∨ (k - 1) % 6 = 2 ∨
        (k - 1) % 6 = 3 ∨ (k - 1) % 6 = 4 ∨ (k - 1) % 6 = 5 := by omega
    simp only [seriesColor, if_neg hk0, if_pos rfl]
    rcases hr with h6 | h6 | h6 | h6 | h6 | h6 <;> simp [spiderPalette, h6]
  · simp only [seriesColor, if_neg hk0, if_neg (show ¬ k + 6 = 0 by omega)]
    congr 1
    show (k + 6 - 1) % 6 = (k - 1) % 6
    omega
  · simp only [radarColor]
    congr 1
    show (k + 5) % 5 = k % 5
    omega

/-- C2 witness: the amended color assignment instantiated at comparison
index 2. -/
theorem series_color_assignment_witness :
    seriesColor 0 = "#38bdf8" ∧
    seriesColor 2 = spiderPalette.getD ((2 - 1) % 6) "" ∧
    seriesColor 2 ≠ seriesColor 0 ∧
    seriesColor (2 + 6) = seriesColor 2 ∧
    radarColor (2 + 5) = radarColor 2 :=
  series_color_assignment 2 (by norm_num)

/-! ## Radial vertex layout

Both radar components place the vertex for axis `i` of `n` at angle
`2π·i/n − π/2` with distance `radius · v` from the center (the frame is a
square, so the x and y center coordinates coincide). -/

/-- The vertex computed inside `buildPath` (both radar components):
`angle = (Math.PI * 2 * idx) / axes.length - Math.PI / 2`,
`x = center + Math.cos(angle) * radius * v`,
`y = center + Math.sin(angle) * radius * v`. -/
noncomputable def radarVertex (center radius : ℝ) (n i : ℕ) (v : ℝ) : ℝ × ℝ :=
  let angle : ℝ := Real.pi * 2 * i / n - Real.pi / 2
  (center + Real.cos angle * radius * v, center + Real.sin angle * radius * v)

/-- C4: the radial vertex for axis `i` of an `n`-axis spec at normalized
value `v` equals the `(center + cos(2π·i/n − π/2)·radius·v,
center + sin(2π·i/n − π/2)·radius·v)` formula, and in particular axis 0
with `v = 1` lands exactly at `(center, center − radius)`, the top of the
circle (exact over the reals, hence within any floating tolerance). -/
theorem radar_vertex_top (center radius v : ℝ) (n i : ℕ) :
    radarVertex center radius n i v =
      (center + Real.cos (Real.pi * 2 * i / n - Real.pi / 2) * radius * v,
       center + Real.sin (Real.pi * 2 * i / n - Real.pi / 2) * radius * v) ∧
    radarVertex center radius n 0 1 = (center, center - radius) := by
  constructor
  · rfl
  · have hangle : Real.pi * 2 * (0 : ℕ) / n - Real.pi / 2 = -(Real.pi / 2) := by
      push_cast
      rw [mul_zero, zero_div, zero_sub]
    have h1 : radarVertex center radius n 0 1 =
        (center + Real.cos (Real.pi * 2 * (0 : ℕ) / n - Real.pi / 2) * radius * 1,
         center + Real.sin (Real.pi * 2 * (0 : ℕ) / n - Real.pi / 2) * radius * 1) := rfl
    rw [h1, hangle, Real.cos_neg, Real.sin_neg, Real.cos_pi_div_two, Real.sin_pi_div_two]
    simp only [Prod.mk.injEq]
    constructor <;> ring

/-! ## CareerChart: trajectory points and smooth paths

Both CareerChart variants first filter the trajectory to entries with a
present `value_score` and then fit a smooth SVG path over the resulting
pixel coordinates.  The second variant uses a Catmull-Rom-to-Bezier
conversion with tension 0.9; the first emits a `Q`/`T` quadratic pair per
segment.  Path commands are embedded as explicit Bezier segments with the
SVG evaluation semantics (for `T`, the reflected control point). -/

/-- One trajectory entry: season, optional composite value score, optional
annotation text (`annot`). -/
structure TrajPoint where
  season : ℤ
  value_score : Option ℚ
  annot : Option String
deriving DecidableEq

/-- The chart's `Point` type: season plus `success : number | null`. -/
structure ChartPoint where
  season : ℤ
  success : Option ℚ
deriving DecidableEq

/-- The `points` computation of both CareerChart variants:
`trajectory.filter(t => t.value_score !== null && t.value_score !== undefined)
 .map(t => ({season: t.season, success: t.value_score ?? null}))`. -/
def chartPoints (trajectory : List TrajPoint) : List ChartPoint :=
  (trajectory.filter (fun t => t.value_score.isSome)).map
    (fun t => { season := t.season, success := t.value_score })

/-- A 2D pixel point. -/
structure P2 where
  x : ℚ
  y : ℚ
deriving DecidableEq

/-- A cubic Bezier segment `C`: start `a`, control points `b`, `c`, end `d`. -/
structure CubicSeg where
  a : P2
  b : P2
  c : P2
  d : P2
deriving DecidableEq

/-- A quadratic Bezier segment: start `a`, control `b`, end `c`. -/
structure QuadSeg where
  a : P2
  b : P2
  c : P2
deriving DecidableEq

/-- Standard cubic Bezier evaluation at parameter `u` (the SVG meaning of a
`C` command's curve). -/
def cubicPoint (s : CubicSeg) (u : ℚ) : P2 :=
  ⟨(1 - u) ^ 3 * s.a.x + 3 * (1 - u) ^ 2 * u * s.b.x +
      3 * (1 - u) * u ^ 2 * s.c.x + u ^ 3 * s.d.x,
    (1 - u) ^ 3 * s.a.y + 3 * (1 - u) ^ 2 * u * s.b.y +
      3 * (1 - u) * u ^ 2 * s.c.y + u ^ 3 * s.d.y⟩

/-- Standard quadratic Bezier evaluation at parameter `u`. -/
def quadPoint (s : QuadSeg) (u : ℚ) : P2 :=
  ⟨(1 - u) ^ 2 * s.a.x + 2 * (1 - u) * u * s.b.x + u ^ 2 * s.c.x,
    (1 - u) ^ 2 * s.a.y + 2 * (1 - u) * u * s.b.y + u ^ 2 * s.c.y⟩

/-- The chart's inline `clamp(v, lo, hi) = Math.max(lo, Math.min(hi, v))`. -/
def clamp (v lo hi : ℤ) : ℤ := max lo (min hi v)

/-- The window accessor `p(i) = pts[clamp(i, 0, pts.length - 1)]` of the
Catmull-Rom `buildSmoothPath`. -/
def pAt (pts : List P2) (i : ℤ) : P2 :=
  pts.getD (clamp i 0 ((pts.length : ℤ) - 1)).toNat ⟨0, 0⟩

/-- The Catmull-Rom `buildSmoothPath` of the second CareerChart, as the list
of emitted `C` segments: empty for fewer than 2 points; otherwise one cubic
per consecutive pair, with control points
`c1 = p1 + (p2 − p0)/6 · tension`, `c2 = p2 − (p3 − p1)/6 · tension`
over the boundary-clamped four-point window and tension 0.9. -/
def catmullSegments (pts : List P2) : List CubicSeg :=
  if pts.length < 2 then []
  else
    (List.range (pts.length - 1)).map (fun i =>
      let tension : ℚ := 9 / 10
      let p0 := pAt pts ((i : ℤ) - 1)
      let p1 := pAt pts (i : ℤ)
      let p2 := pAt pts ((i : ℤ) + 1)
      let p3 := pAt pts ((i : ℤ) + 2)
      { a := p1,
        b := ⟨p1.x + (p2.x - p0.x) / 6 * tension, p1.y + (p2.y - p0.y) / 6 * tension⟩,
        c := ⟨p2.x - (p3.x - p1.x) / 6 * tension, p2.y - (p3.y - p1.y) / 6 * tension⟩,
        d := p2 })

/-- The quadratic `buildSmoothPath` of the first CareerChart, as the list of
emitted quadratic segments: empty for fewer than 2 points; otherwise, per
consecutive pair, the `Q` command from `p_i` with control `p_i` to the
midpoint, followed by the `T` command to `p_{i+1}` whose SVG-implied control
is the reflection of the previous control about the current point. -/
def quadSegments (pts : List P2) : List QuadSeg :=
  if pts.length < 2 then []
  else
    ((List.range (pts.length - 1)).map (fun i =>
      let p0 := pts.getD i ⟨0, 0⟩
      let p1 := pts.getD (i + 1) ⟨0, 0⟩
      let m : P2 := ⟨(p0.x + p1.x) / 2, (p0.y + p1.y) / 2⟩
      [({ a := p0, b := p0, c := m } : QuadSeg),
       { a := m, b := ⟨2 * m.x - p0.x, 2 * m.y - p0.y⟩, c := p1 }])).flatten

/-- `r` lies on the straight segment from `p` to `q`. -/
def onSegment (p q r : P2) : Prop :=
  ∃ t : ℚ, 0 ≤ t ∧ t ≤ 1 ∧ r.x = p.x + t * (q.x - p.x) ∧ r.y = p.y + t * (q.y - p.y)

/-- C5: with fewer than 2 points both `buildSmoothPath` variants return the
empty path; for exactly 2 points the Catmull-Rom variant emits a single
cubic whose curve starts at `p`, ends at `q` and stays on the straight
segment `p`–`q` for every parameter `u ∈ [0,1]`, and the quadratic variant
emits two quadratics whose curves likewise stay on that segment. -/
theorem curve_two_point_segment (p q : P2) (u : ℚ) (hu0 : 0 ≤ u) (hu1 : u ≤ 1) :
    (∀ pts : List P2, pts.length < 2 →
      catmullSegments pts = [] ∧ quadSegments pts = []) ∧
    (catmullSegments [p, q]).length = 1 ∧
    (quadSegments [p, q]).length = 2 ∧
    (∀ s ∈ catmullSegments [p, q],
      cubicPoint s 0 = p ∧ cubicPoint s 1 = q ∧ onSegment p q (cubicPoint s u)) ∧
    (∀ s ∈ quadSegments [p, q], onSegment p q (quadPoint s u)) := by
  have h1u : (0:ℚ) ≤ 1 - u := by linarith
  have hcat : catmullSegments [p, q] =
      [{ a := p,
         b := ⟨p.x + (q.x - p.x) / 6 * (9 / 10), p.y + (q.y - p.y) / 6 * (9 / 10)⟩,
         c := ⟨q.x - (q.x - p.x) / 6 * (9 / 10), q.y - (q.y - p.y) / 6 * (9 / 10)⟩,
         d := q }] := rfl
  have hquad : quadSegments [p, q] =
      [{ a := p, b := p, c := ⟨(p.x + q.x) / 2, (p.y + q.y) / 2⟩ },
       { a := ⟨(p.x + q.x) / 2, (p.y + q.y) / 2⟩,
         b := ⟨2 * ((p.x + q.x) / 2) - p.x, 2 * ((p.y + q.y) / 2) - p.y⟩,
         c := q }] := rfl
  refine ⟨?_, ?_, ?_, ?_, ?_⟩
  · intro pts h
    constructor <;> simp [catmullSegments, quadSegments, h]
  · rw [hcat]; rfl
  · rw [hquad]; rfl
  · intro s hs
    rw [hcat, List.mem_singleton] at hs
    subst hs
    refine ⟨?_, ?_, ?_⟩
    · show (⟨_, _⟩ : P2) = p
      rw [show p = ⟨p.x, p.y⟩ from rfl]
      simp only [P2.mk.injEq]
      constructor <;> ring
    · show (⟨_, _⟩ : P2) = q
      rw [show q = ⟨q.x, q.y⟩ from rfl]
      simp only [P2.mk.injEq]
      constructor <;> ring
    · refine ⟨3 * ((1 - u) * (1 - u)) * u * (3 / 20) +
        3 * (1 - u) * (u * u) * (17 / 20) + u * u * u, ?_, ?_, ?_, ?_⟩
      · nlinarith [mul_nonneg (mul_nonneg h1u h1u) hu0,
          mul_nonneg (mul_nonneg hu0 hu0) h1u,
          mul_nonneg (mul_nonneg hu0 hu0) hu0]
      · nlinarith [mul_nonneg (mul_nonneg h1u h1u) h1u,
          mul_nonneg (mul_nonneg h1u h1u) hu0,
          mul_nonneg (mul_nonneg h1u hu0) hu0]
      · show (1 - u) ^ 3 * p.x + _ + _ + _ = _
        ring
      · show (1 - u) ^ 3 * p.y + _ + _ + _ = _
        ring
  · intro s hs
    rw [hquad] at hs
    rcases List.mem_cons.mp hs with h | h
    · subst h
      refine ⟨u * u * (1 / 2), ?_, ?_, ?_, ?_⟩
      · positivity
      · nlinarith
      · show (1 - u) ^ 2 * p.x + _ + _ = _
        ring
      · show (1 - u) ^ 2 * p.y + _ + _ = _
        ring
    · rw [List.mem_singleton] at h
      subst h
      refine ⟨1 - (1 - u) * (1 - u) * (1 / 2), ?_, ?_, ?_, ?_⟩
      · nlinarith
      · nlinarith [mul_nonneg h1u h1u]
      · show (1 - u) ^ 2 * ((p.x + q.x) / 2) + _ + _ = _
        ring
      · show (1 - u) ^ 2 * ((p.y + q.y) / 2) + _ + _ = _
        ring

/-- C5 witness: the two-point fit instantiated at `p = (0,0)`, `q = (1,1)`
and parameter `u = 1/2`, at the single concrete emitted cubic segment. -/
theorem curve_two_point_segment_witness :
    onSegment ⟨0, 0⟩ ⟨1, 1⟩
      (cubicPoint ⟨⟨0, 0⟩, ⟨3 / 20, 3 / 20⟩, ⟨17 / 20, 17 / 20⟩, ⟨1, 1⟩⟩ (1 / 2)) :=
  ((curve_two_point_segment ⟨0, 0⟩ ⟨1, 1⟩ (1 / 2)
      (by norm_num) (by norm_num)).2.2.2.1
    ⟨⟨0, 0⟩, ⟨3 / 20, 3 / 20⟩, ⟨17 / 20, 17 / 20⟩, ⟨1, 1⟩⟩
    (List.mem_singleton.mpr (by norm_num [pAt, clamp]))).2.2

/-- C7: the plotted chart points are exactly the trajectory entries whose
`value_score` is present, in order; every plotted point carries a present
value, and an absent-value entry contributes nothing to the fitted point
list — the path is built over only the present-value points, never
interpolating across a gap. -/
theorem chart_points_present_only (trajectory : List TrajPoint) :
    (∀ pnt ∈ chartPoints trajectory, pnt.success.isSome = true) ∧
    (∀ pnt, pnt ∈ chartPoints trajectory ↔
      ∃ t ∈ trajectory, t.value_score.isSome = true ∧
        pnt = { season := t.season, success := t.value_score }) ∧
    (∀ pre post gap, gap.value_score = none →
      chartPoints (pre ++ gap :: post) = chartPoints (pre ++ post)) := by
  refine ⟨?_, ?_, ?_⟩
  · intro pnt h
    simp only [chartPoints, List.mem_map, List.mem_filter] at h
    rcases h with ⟨t, ⟨_, hsome⟩, hpt⟩
    rw [← hpt]
    exact hsome
  · intro pnt
    simp only [chartPoints, List.mem_map, List.mem_filter]
    constructor
    · rintro ⟨t, ⟨ht, hsome⟩, hpt⟩
      exact ⟨t, ht, hsome, hpt.symm⟩
    · rintro ⟨t, ht, hsome, hpt⟩
      exact ⟨t, ⟨ht, hsome⟩, hpt.symm⟩
  · intro pre post gap hgap
    simp [chartPoints, List.filter_append, List.filter_cons, hgap]

/-- The spec's end-to-end trajectory scenario: seasons 2020–2022 with a
missing 2021 value and an annotated 2022 point. -/
def exTraj : List TrajPoint :=
  [⟨2020, some (91 / 5), none⟩, ⟨2021, none, none⟩, ⟨2022, some (49 / 2), some "inj"⟩]

/-- C7 witness: on the 3-season scenario with a missing 2021 value, the
plotted points are those of the trajectory with the gap entry removed. -/
theorem chart_points_present_only_witness :
    chartPoints exTraj =
      chartPoints [⟨2020, some (91 / 5), none⟩, ⟨2022, some (49 / 2), some "inj"⟩] :=
  (chart_points_present_only exTraj).2.2
    [⟨2020, some (91 / 5), none⟩] [⟨2022, some (49 / 2), some "inj"⟩]
    ⟨2021, none, none⟩ rfl

/-! ## Season-axis tick generation (second CareerChart `buildTicks`) -/

/-- The tick loop `for (let y = minSeason; y <= maxSeason; y += step)`,
written with a fuel argument large enough to cover every iteration. -/
def tickLoop : ℕ → ℤ → ℤ → ℤ → List ℤ
  | 0, _, _, _ => []
  | fuel + 1, maxS, step, y =>
      if y ≤ maxS then y :: tickLoop fuel maxS step (y + step) else []

/-- `buildTicks`: `step = Math.max(1, Math.ceil(span / 8))` (for an integer
span, `⌈span/8⌉ = ⌊(span+7)/8⌋`), ticks at `min + k·step` while `≤ max`,
then force-append `max` when the last tick is off-step. -/
def buildTicks (minS maxS : ℤ) : List ℤ :=
  let span := maxS - minS
  let step : ℤ := max 1 ((span + 7) / 8)
  let ticks := tickLoop (span.toNat + 1) maxS step minS
  if ticks.getLast? = some maxS then ticks else ticks ++ [maxS]

lemma tickLoop_mem (fuel : ℕ) (maxS step y : ℤ) :
    ∀ x ∈ tickLoop fuel maxS step y, x ≤ maxS ∧ ∃ k : ℕ, x = y + k * step := by
  induction fuel generalizing y with
  | zero => intro x hx; cases hx
  | succ n ih =>
      intro x hx
      unfold tickLoop at hx
      by_cases hy : y ≤ maxS
      · rw [if_pos hy] at hx
        rcases List.mem_cons.mp hx with h | h
        · exact ⟨h ▸ hy, 0, by omega⟩
        · rcases ih (y + step) x h with ⟨hle, k, hk⟩
          exact ⟨hle, k + 1, by push_cast [hk]; ring⟩
      · rw [if_neg hy] at hx
        cases hx

lemma tickLoop_succ (fuel : ℕ) (maxS step y : ℤ) :
    tickLoop (fuel + 1) maxS step y =
      if y ≤ maxS then y :: tickLoop fuel maxS step (y + step) else [] := rfl

/-- C6: for every season domain with `min < max`, the generated tick list
starts at `min`, every tick is either on-step (`min + k·step`) and `≤ max`
or the force-appended final `max`, and the last element always equals
`max` even when `max` is off-step. -/
theorem build_ticks_last (minS maxS : ℤ) (h : minS < maxS) :
    (buildTicks minS maxS).head? = some minS ∧
    (buildTicks minS maxS).getLast? = some maxS ∧
    (∀ x ∈ buildTicks minS maxS,
      x = maxS ∨ (x ≤ maxS ∧
        ∃ k : ℕ, x = minS + k * max 1 ((maxS - minS + 7) / 8))) := by
  have hbt : buildTicks minS maxS =
      if (tickLoop ((maxS - minS).toNat + 1) maxS (max 1 ((maxS - minS + 7) / 8))
            minS).getLast? = some maxS then
        tickLoop ((maxS - minS).toNat + 1) maxS (max 1 ((maxS - minS + 7) / 8)) minS
      else
        tickLoop ((maxS - minS).toNat + 1) maxS (max 1 ((maxS - minS + 7) / 8)) minS
          ++ [maxS] := rfl
  have hloop : tickLoop ((maxS - minS).toNat + 1) maxS
      (max 1 ((maxS - minS + 7) / 8)) minS =
      minS :: tickLoop (maxS - minS).toNat maxS
        (max 1 ((maxS - minS + 7) / 8)) (minS + max 1 ((maxS - minS + 7) / 8)) := by
    rw [tickLoop_succ, if_pos (le_of_lt h)]
  refine ⟨?_, ?_, ?_⟩
  · rw [hbt]
    by_cases hc : (tickLoop ((maxS - minS).toNat + 1) maxS
        (max 1 ((maxS - minS + 7) / 8)) minS).getLast? = some maxS
    · rw [if_pos hc, hloop]; rfl
    · rw [if_neg hc, hloop]; rfl
  · rw [hbt]
    by_cases hc : (tickLoop ((maxS - minS).toNat + 1) maxS
        (max 1 ((maxS - minS + 7) / 8)) minS).getLast? = some maxS
    · rw [if_pos hc]; exact hc
    · rw [if_neg hc]; exact List.getLast?_concat _
  · intro x hx
    rw [hbt] at hx
    by_cases hc : (tickLoop ((maxS - minS).toNat + 1) maxS
        (max 1 ((maxS - minS + 7) / 8)) minS).getLast? = some maxS
    · rw [if_pos hc] at hx
      right
      rcases tickLoop_mem _ _ _ _ x hx with ⟨hle, k, hk⟩
      exact ⟨hle, k, hk⟩
    · rw [if_neg hc] at hx
      rcases List.mem_append.mp hx with h2 | h2
      · right
        rcases tickLoop_mem _ _ _ _ x h2 with ⟨hle, k, hk⟩
        exact ⟨hle, k, hk⟩
      · left
        exact List.mem_singleton.mp h2

/-- C6 witness: the tick invariants instantiated at the domain
`[2010, 2023]` (span 13, step 2, so 2023 is off-step and force-appended). -/
theorem build_ticks_last_witness :
    (buildTicks 2010 2023).head? = some 2010 ∧
    (buildTicks 2010 2023).getLast? = some 2023 :=
  ⟨(build_ticks_last 2010 2023 (by norm_num)).1,
   (build_ticks_last 2010 2023 (by norm_num)).2.1⟩

/-! ## Annotation placement (both CareerChart variants, identical constants)

`yAbove = y - 60`, `yBelow = y + 40`, `useBelow = yAbove < 10`,
`yPos = useBelow ? yBelow : yAbove`; the frame's top edge is `y = 0` and the
guard distance is 10 pixels. -/

/-- The annotation placement: returns the placed y position and whether the
below side was used. -/
def annotationPlace (y : ℚ) : ℚ × Bool :=
  let yAbove := y - 60
  let yBelow := y + 40
  let useBelow : Bool := yAbove < 10
  ((if useBelow then yBelow else yAbove), useBelow)

/-- C8: the annotation defaults to the fixed offset 60 above the point and
flips to the fixed offset 40 below exactly when the above position `y − 60`
would fall within the guard distance 10 of the frame's top edge — that is,
exactly when `y < 70`. -/
theorem annotation_flip_rule (y : ℚ) :
    ((annotationPlace y).2 = true ↔ y - 60 < 10) ∧
    (annotationPlace y).1 = (if y < 70 then y + 40 else y - 60) ∧
    (y - 60 < 10 → (annotationPlace y).1 = y + 40) ∧
    (10 ≤ y - 60 → (annotationPlace y).1 = y - 60) := by
  have hiff : ((y - 60 < 10 : Prop) ↔ (y < 70 : Prop)) := by constructor <;> intro <;> linarith
  refine ⟨?_, ?_, ?_, ?_⟩
  · simp [annotationPlace]
  · simp only [annotationPlace, decide_eq_true_eq]
    by_cases hy : y - 60 < 10
    · rw [if_pos (by simpa using hy), if_pos (hiff.mp hy)]
    · rw [if_neg (by simpa using hy), if_neg (fun hc => hy (hiff.mpr hc))]
  · intro hy
    simp [annotationPlace, hy]
  · intro hy
    have : ¬ (y - 60 < 10) := by linarith
    simp [annotationPlace, this]

/-- C8 witness: a point at `y = 30` (above position −30 inside the guard
band) flips below to 70, and a point at `y = 200` keeps the above
placement at 140. -/
theorem annotation_flip_rule_witness :
    (annotationPlace 30).1 = (30 : ℚ) + 40 ∧
    (annotationPlace 200).1 = (200 : ℚ) - 60 :=
  ⟨(annotation_flip_rule 30).2.2.1 (by norm_num),
   (annotation_flip_rule 200).2.2.2 (by norm_num)⟩

/-! ## SimilarList (second variant): finite filter, ascending sort, ranks -/

/-- A JS number as carried by `distance`: a finite rational or one of the
non-finite values rejected by `Number.isFinite`. -/
inductive JNum where
  | fin (q : ℚ)
  | posInf
  | negInf
  | nan
deriving DecidableEq

/-- `Number.isFinite`. -/
def JNum.isFinite : JNum → Bool
  | .fin _ => true
  | _ => false

/-- The rational carried by a finite JS number (junk 0 on non-finite input;
only ever applied after the finiteness filter). -/
def JNum.val : JNum → ℚ
  | .fin q => q
  | _ => 0

/-- One entry of the `comps` prop: identity, name, scalar distance and the
upstream-supplied `similarity_rank`. -/
structure Comp where
  player_id : ℤ
  name : String
  distance : JNum
  similarity_rank : ℤ
deriving DecidableEq

/-- SimilarList's `sorted`:
`[...comps].filter(c => Number.isFinite(c.distance)).sort((a,b) => a.distance - b.distance)`.
JS `Array.prototype.sort` is stable and the subtraction comparator orders
finite distances ascending, so it is modelled by a stable merge sort on
`distance ≤ distance`. -/
def sortedComps (comps : List Comp) : List Comp :=
  (comps.filter (fun c => c.distance.isFinite)).mergeSort
    (fun a b => decide (a.distance.val ≤ b.distance.val))

/-- One rendered similar-player card: the displayed rank badge
(`#{idx + 1}`), name and distance. -/
structure SimilarCard where
  rank : ℕ
  name : String
  distance : JNum
deriving DecidableEq

/-- The rendering loop `sorted.map((c, idx) => ...)`: card `idx` displays
rank `idx + 1`. -/
def similarCards (comps : List Comp) : List SimilarCard :=
  (sortedComps comps).enum.map (fun pr => ⟨pr.1 + 1, pr.2.name, pr.2.distance⟩)

/-- C9: entries with a non-finite distance are dropped (the displayed list
is a permutation of the finite-distance entries and contains only those);
the displayed order is ascending by distance; and the displayed rank badges
are exactly 1, 2, …, n in that order — the 1-based sorted position, taken
from the map index and not from the supplied `similarity_rank` field. -/
theorem similar_list_sorted_ranks (comps : List Comp) :
    (∀ c ∈ sortedComps comps, c.distance.isFinite = true) ∧
    (sortedComps comps).Perm (comps.filter (fun c => c.distance.isFinite)) ∧
    (sortedComps comps).Pairwise (fun a b => a.distance.val ≤ b.distance.val) ∧
    (similarCards comps).map (fun card => card.rank) =
      (List.range (sortedComps comps).length).map (fun i => i + 1) ∧
    (similarCards comps).map (fun card => card.name) =
      (sortedComps comps).map (fun c => c.name) := by
  refine ⟨?_, ?_, ?_, ?_, ?_⟩
  · intro c hc
    have hmem : c ∈ comps.filter (fun c2 => c2.distance.isFinite) :=
      (List.mergeSort_perm (comps.filter (fun c2 => c2.distance.isFinite)) _).mem_iff.mp hc
    exact (List.mem_filter.mp hmem).2
  · exact List.mergeSort_perm _ _
  · have htrans : ∀ a b c : Comp,
        decide (a.distance.val ≤ b.distance.val) = true →
        decide (b.distance.val ≤ c.distance.val) = true →
        decide (a.distance.val ≤ c.distance.val) = true := by
      intro a b c hab hbc
      simp only [decide_eq_true_eq] at hab hbc ⊢
      exact le_trans hab hbc
    have htotal : ∀ a b : Comp,
        (decide (a.distance.val ≤ b.distance.val) ||
          decide (b.distance.val ≤ a.distance.val)) = true := by
      intro a b
      simp only [Bool.or_eq_true, decide_eq_true_eq]
      exact le_total _ _
    have hp := @List.sorted_mergeSort Comp
      (fun a b => decide (a.distance.val ≤ b.distance.val)) htrans htotal
      (comps.filter (fun c => c.distance.isFinite))
    exact hp.imp (fun h => of_decide_eq_true h)
  · have h1 : (similarCards comps).map (fun card => card.rank) =
        (sortedComps comps).enum.map (fun pr => pr.1 + 1) := by
      simp [similarCards, List.map_map]
    have h2 : (List.range (sortedComps comps).length).map (fun i => i + 1) =
        (sortedComps comps).enum.map (fun pr => pr.1 + 1) := by
      rw [← List.enum_map_fst (sortedComps comps), List.map_map]
      rfl
    rw [h1, h2]
  · have h1 : (similarCards comps).map (fun card => card.name) =
        (sortedComps comps).enum.map (fun pr => pr.2.name) := by
      simp [similarCards, List.map_map]
    have h2 : (sortedComps comps).map (fun c => c.name) =
        (sortedComps comps).enum.map (fun pr => pr.2.name) := by
      conv_lhs => rw [← List.enum_map_snd (sortedComps comps)]
      rw [List.map_map]
      rfl
    rw [h1, h2]

/-- A concrete comps list with one non-finite distance entry. -/
def exComps : List Comp :=
  [⟨10, "a", .fin 3, 1⟩, ⟨11, "b", .nan, 2⟩, ⟨12, "c", .fin 1, 3⟩]

/-- C9 witness: the ranking invariants instantiated at `exComps`; the
finite-distance entry `12` is displayed (with a finite distance) and the
displayed rank badges are `1, 2, …` in sorted order. -/
theorem similar_list_sorted_ranks_witness :
    (⟨12, "c", .fin 1, 3⟩ : Comp).distance.isFinite = true ∧
    (similarCards exComps).map (fun card => card.rank) =
      (List.range (sortedComps exComps).length).map (fun i => i + 1) :=
  ⟨(similar_list_sorted_ranks exComps).1 ⟨12, "c", .fin 1, 3⟩
      (((similar_list_sorted_ranks exComps).2.1).mem_iff.mpr (by decide)),
    (similar_list_sorted_ranks exComps).2.2.2.1⟩

/-! ## CountingGeometrySpider legend and drawn polygons -/

/-- The spider's 8 axes in declaration order. -/
def spiderAxes : List SpiderAxis :=
  [.efficiency, .threes, .points, .rebounds, .assists, .steals, .blocks, .turnovers]

/-- The polygon drawn for one spider series: `buildPath`'s vertex list over
the 8 axes, with the component's `size = 380`, `center = 190`,
`radius = 190 − 34 = 156`. -/
noncomputable def spiderPolygon (s : SpiderSeries) : List (ℝ × ℝ) :=
  spiderAxes.enum.map (fun pr =>
    radarVertex 190 156 spiderAxes.length pr.1 ((spiderNormValue s pr.2 : ℚ) : ℝ))

/-- The svg body renders `series.map((s, idx) => <path d={buildPath(s)} .../>)`:
one polygon per supplied series, regardless of index. -/
noncomputable def spiderDrawn (series : List SpiderSeries) : List (List (ℝ × ℝ)) :=
  series.map spiderPolygon

/-- `LegendTree`'s selected entity: `series[0]`. -/
def legendSelected (series : List SpiderSeries) : Option SpiderSeries :=
  series.head?

/-- `LegendTree`'s comparison entities: `series.slice(1, 4)`. -/
def legendComps (series : List SpiderSeries) : List SpiderSeries :=
  (series.drop 1).take 3

/-- C10: the legend shows the first series as the selected entity and at
most 3 comparison entities — exactly the series at indices 1 through 3 —
while the chart body still draws one polygon per supplied series, so series
beyond index 3 are drawn but never appear in the legend. -/
theorem spider_legend_slice (series : List SpiderSeries) :
    (legendComps series).length = min 3 (series.length - 1) ∧
    (legendComps series).length ≤ 3 ∧
    (∀ i : ℕ, (legendComps series)[i]? = if i < 3 then series[i + 1]? else none) ∧
    legendSelected series = series[0]? ∧
    (spiderDrawn series).length = series.length := by
  refine ⟨?_, ?_, ?_, ?_, ?_⟩
  · simp [legendComps]
  · simp [legendComps]
  · intro i
    by_cases hi : i < 3
    · rw [if_pos hi]
      rw [legendComps, List.getElem?_take, if_pos hi, List.getElem?_drop]
      rw [Nat.add_comm 1 i]
    · rw [if_neg hi]
      rw [legendComps, List.getElem?_take, if_neg hi]
  · cases series <;> simp [legendSelected]
  · simp [spiderDrawn]

end NbaViz
